import Mathlib

/-!
Verification development for the company web-search agent
(`web_search_agent_v3.py`, class `WebSearchAgent`).

The extraction / filter / dedup pipeline is shallowly embedded here:

* Python strings are modelled as Lean `String` / `List Char` (the model is
  exact on ASCII data; Unicode-only behaviours such as NFKC normalisation and
  non-ASCII case mapping are out of scope, as is the optional translation
  feature, i.e. the `HAS_TRANSLATOR = False` configuration of the agent).
* `re.findall` is modelled by a small backtracking regular-expression engine
  (`RE`, `ends`, `findall`) whose match priority (leftmost scan position,
  greedy quantifiers, left-biased alternation) follows Python's engine for
  the patterns used by the agent; the patterns contain no capture groups, so
  `findall` returns the matched substrings.
* `urllib.parse.urlparse(...).netloc` is modelled by `pyNetloc`
  (scheme split, `//`-prefixed netloc, removal of the unsafe bytes
  tab/CR/LF, `ValueError` on mismatched square brackets in the netloc,
  returned as `Except`).
* `dict` records become the structure `CompanyInfo` with `Option String`
  fields; Python falsiness of a field (`None` or `""`) is `falsy`.
-/

/-! ## Model of the Python primitives used by the agent -/

/-- Python whitespace, ASCII range: the characters matched by `\s` and
stripped by `str.strip()`. -/
def isPySpace (c : Char) : Bool :=
  c == ' ' || c == '\t' || c == '\n' || c == '\r' || c == '\x0b' || c == '\x0c'

/-- ASCII lower-case table used to model `str.lower()` (and `re.IGNORECASE`)
on the ASCII range; non-ASCII characters are left unchanged in this model. -/
def asciiLowerTable : List (Char × Char) :=
  [('A','a'),('B','b'),('C','c'),('D','d'),('E','e'),('F','f'),('G','g'),
   ('H','h'),('I','i'),('J','j'),('K','k'),('L','l'),('M','m'),('N','n'),
   ('O','o'),('P','p'),('Q','q'),('R','r'),('S','s'),('T','t'),('U','u'),
   ('V','v'),('W','w'),('X','x'),('Y','y'),('Z','z')]

/-- `str.lower()` on one character (ASCII model). -/
def pyLowerChar (c : Char) : Char :=
  match asciiLowerTable.find? (fun p => p.1 == c) with
  | some p => p.2
  | none => c

/-- `str.lower()` (ASCII model). -/
def pyLowerStr (s : String) : String := ⟨s.data.map pyLowerChar⟩

/-- `str.strip()` (ASCII-whitespace model). -/
def pyStrip (s : String) : String :=
  ⟨(((s.data.dropWhile isPySpace).reverse.dropWhile isPySpace).reverse)⟩

/-- Python's substring test `needle in hay` on lists of characters. -/
def containsSub (hay needle : List Char) : Bool :=
  (List.range (hay.length + 1)).any (fun i => needle.isPrefixOf (hay.drop i))

/-! ## A model of `re` for the agent's patterns

The agent only uses character classes, single-character literals, optional
elements, bounded/unbounded greedy repetition of a character class,
alternation of literal words, and the word boundary `\b`.  `ends re s p`
returns the possible end positions of a match of `re` starting at position
`p` of `s`, in Python's backtracking priority order (greedy repetitions
longest-first, alternation left-first); the head of that list is the match
Python's engine produces. -/

inductive RE where
  /-- empty pattern -/
  | eps : RE
  /-- one character of a class -/
  | cls : (Char → Bool) → RE
  /-- concatenation -/
  | cat : RE → RE → RE
  /-- alternation, left-preferred -/
  | alt : RE → RE → RE
  /-- greedy repetition of a character class: min count, optional max count -/
  | rep : (Char → Bool) → Nat → Option Nat → RE
  /-- word boundary `\b` -/
  | wb : RE

/-- Word character for `\b` (`\w`, ASCII model). -/
def isWordChar (c : Char) : Bool := c.isAlphanum || c == '_'

/-- Is there a word boundary of `s` at position `p`? -/
def wordBoundaryAt (s : List Char) (p : Nat) : Bool :=
  let prev := match s.get? (p - 1) with
    | some c => if p == 0 then false else isWordChar c
    | none => false
  let cur := match s.get? p with
    | some c => isWordChar c
    | none => false
  prev != cur

/-- All candidate end positions of a match of `re` in `s` starting at `p`,
in backtracking priority order. -/
def ends : RE → List Char → Nat → List Nat
  | .eps, _, p => [p]
  | .cls c, s, p =>
    match s.get? p with
    | some ch => if c ch then [p + 1] else []
    | none => []
  | .cat a b, s, p => (ends a s p).flatMap (fun q => ends b s q)
  | .alt a b, s, p => ends a s p ++ ends b s p
  | .rep c mn mx, s, p =>
    let t0 := ((s.drop p).takeWhile c).length
    let t := match mx with
      | some m => min t0 m
      | none => t0
    if t < mn then []
    else (List.range (t - mn + 1)).map (fun i => p + (t - i))
  | .wb, s, p => if wordBoundaryAt s p then [p] else []

/-- End position of the preferred match of `re` at position `p`, if any. -/
def matchEnd (re : RE) (s : List Char) (p : Nat) : Option Nat :=
  (ends re s p).head?

/-- The characters of `s` from position `a` (inclusive) to `b` (exclusive). -/
def sliceStr (s : List Char) (a b : Nat) : String := ⟨(s.take b).drop a⟩

/-- Scanning loop of `re.findall`: try each start position from left to
right, emit the preferred match, continue after its end (non-overlapping).
`fuel` bounds the recursion; `findall` supplies enough fuel. -/
def findallAux (re : RE) (s : List Char) : Nat → Nat → List String
  | 0, _ => []
  | fuel + 1, p =>
    if p > s.length then []
    else match matchEnd re s p with
      | some e =>
        if e > p then sliceStr s p e :: findallAux re s fuel e
        else sliceStr s p e :: findallAux re s fuel (p + 1)
      | none => findallAux re s fuel (p + 1)

/-- `re.findall(pattern, text)` for the agent's group-free patterns. -/
def findall (re : RE) (t : String) : List String :=
  findallAux re t.data (t.data.length + 1) 0

/-- Single literal character. -/
def chr (c : Char) : RE := .cls (fun x => x == c)

/-- Greedy `?`. -/
def opt (r : RE) : RE := .alt r .eps

/-- Concatenation of a list of pieces. -/
def catl : List RE → RE
  | [] => .eps
  | [r] => r
  | r :: rs => .cat r (catl rs)

/-- Left-biased alternation of a list of pieces. -/
def altl : List RE → RE
  | [] => .cls (fun _ => false)
  | [r] => r
  | r :: rs => .alt r (altl rs)

/-- Case-insensitive literal word (models `re.IGNORECASE` on a literal). -/
def litci (w : String) : RE :=
  catl (w.data.map (fun c => RE.cls (fun x => pyLowerChar x == pyLowerChar c)))

/-! ## `WebSearchAgent.extract_email` (v3 source, lines 119-127) -/

/-- Character class of the local part `[A-Za-z0-9._%+-]`. -/
def emailLocalC (c : Char) : Bool :=
  c.isAlphanum || c == '.' || c == '_' || c == '%' || c == '+' || c == '-'

/-- Character class of the domain `[A-Za-z0-9.-]`. -/
def emailDomainC (c : Char) : Bool := c.isAlphanum || c == '.' || c == '-'

/-- Character class of the TLD `[A-Z|a-z]` (the source's class literally
includes `|`). -/
def emailTldC (c : Char) : Bool := c.isAlpha || c == '|'

/-- The email pattern
`\b[A-Za-z0-9._%+-]+@[A-Za-z0-9.-]+\.[A-Z|a-z]{2,}\b`. -/
def emailPat : RE :=
  catl [.wb, .rep emailLocalC 1 none, chr '@', .rep emailDomainC 1 none,
        chr '.', .rep emailTldC 2 none, .wb]

/-- The placeholder strings of the source's false-positive filter. -/
def placeholderSubstrs : List String := ["example.com", "test.com", "domain.com"]

/-- `any(x in e.lower() for x in ['example.com', 'test.com', 'domain.com'])`:
the email *contains* a placeholder string as a case-insensitive substring. -/
def hasPlaceholder (e : String) : Bool :=
  placeholderSubstrs.any (fun p => containsSub (pyLowerStr e).data p.data)

/-- `WebSearchAgent.extract_email`: find all matches of `emailPat`; drop the
matches containing a placeholder string; return the first survivor, else the
first match, else `None`. -/
def extract_email (t : String) : Option String :=
  match findall emailPat t with
  | [] => none
  | e :: es =>
    match (e :: es).filter (fun x => !hasPlaceholder x) with
    | f :: _ => some f
    | [] => some e

/-! ## `WebSearchAgent.extract_phone` (v3 source, lines 129-141) -/

/-- Decimal digit `\d` (ASCII model). -/
def digitC (c : Char) : Bool := c.isDigit

/-- Separator class `[-.\s]`. -/
def sepC (c : Char) : Bool := c == '-' || c == '.' || isPySpace c

/-- US phone pattern `\+?1?[-.\s]?\(?\d{3}\)?[-.\s]?\d{3}[-.\s]?\d{4}`. -/
def naPhonePat : RE :=
  catl [opt (chr '+'), opt (chr '1'), opt (.cls sepC), opt (chr '('),
        .rep digitC 3 (some 3), opt (chr ')'), opt (.cls sepC),
        .rep digitC 3 (some 3), opt (.cls sepC), .rep digitC 4 (some 4)]

/-- International phone pattern
`\+?\d{1,3}[-.\s]?\d{1,4}[-.\s]?\d{1,4}[-.\s]?\d{1,9}`. -/
def intlPhonePat : RE :=
  catl [opt (chr '+'), .rep digitC 1 (some 3), opt (.cls sepC),
        .rep digitC 1 (some 4), opt (.cls sepC), .rep digitC 1 (some 4),
        opt (.cls sepC), .rep digitC 1 (some 9)]

/-- The shared loop `for pattern in patterns: ... return phones[0].strip()`
of `extract_phone` / `extract_address`. -/
def tryPatterns (pats : List RE) (t : String) : Option String :=
  match pats with
  | [] => none
  | p :: ps =>
    match findall p t with
    | x :: _ => some (pyStrip x)
    | [] => tryPatterns ps t

/-- `WebSearchAgent.extract_phone`: the US pattern first, then the
international pattern; first match of the first pattern that fires,
whitespace-stripped. -/
def extract_phone (t : String) : Option String :=
  tryPatterns [naPhonePat, intlPhonePat] t

/-! ## `WebSearchAgent.extract_address` (v3 source, lines 143-155) -/

/-- Class `[A-Za-z0-9\s,]` of the street-name segment. -/
def addrNameC (c : Char) : Bool := c.isAlphanum || isPySpace c || c == ','

/-- Class `[\s,]`. -/
def spaceCommaC (c : Char) : Bool := isPySpace c || c == ','

/-- Class `[A-Za-z\s,]` of the locality segment (case classes are immaterial
under `re.IGNORECASE`). -/
def localityC (c : Char) : Bool := c.isAlpha || isPySpace c || c == ','

/-- Letter class: `[A-Z]` under `re.IGNORECASE`. -/
def letterC (c : Char) : Bool := c.isAlpha

/-- The street-type keyword alternation
`(?:Street|St|Avenue|Ave|Road|Rd|Boulevard|Blvd|Drive|Dr|Lane|Ln|Way|Court|Ct|Place|Pl)`,
case-insensitive, alternatives tried in source order. -/
def streetTypeAlt : RE :=
  altl (["Street","St","Avenue","Ave","Road","Rd","Boulevard","Blvd","Drive",
         "Dr","Lane","Ln","Way","Court","Ct","Place","Pl"].map litci)

/-- First address pattern: house number, street name, street type, locality,
optional 2-letter state, 5-digit postal code (`re.IGNORECASE`). -/
def addrPatFull : RE :=
  catl [.rep digitC 1 none, .rep isPySpace 1 none, .rep addrNameC 1 none,
        streetTypeAlt, .rep spaceCommaC 1 none, .rep localityC 1 none,
        opt (catl [.cls letterC, .cls letterC]), .rep isPySpace 1 none,
        .rep digitC 5 (some 5)]

/-- Second address pattern: house number, street name, street type only. -/
def addrPatShort : RE :=
  catl [.rep digitC 1 none, .rep isPySpace 1 none, .rep addrNameC 1 none,
        streetTypeAlt]

/-- `WebSearchAgent.extract_address`: the full pattern first, then the
short pattern; first match of the first pattern that fires, stripped. -/
def extract_address (t : String) : Option String :=
  tryPatterns [addrPatFull, addrPatShort] t

/-! ## Model of `urllib.parse.urlparse(url).netloc`

`pyNetloc` models the steps of `urllib.parse.urlsplit` that decide the
`netloc` component: removal of the unsafe bytes tab/CR/LF, splitting off a
`scheme:` prefix (first `:`, at a positive index, preceded only by scheme
characters starting with a letter), a netloc present exactly when the
remainder starts with `//` (up to the next `/`, `?` or `#`), and the
`ValueError` raised on a netloc containing `[` without `]` or vice versa
(modelled as `Except.error`). -/

/-- Characters that end the netloc component. -/
def netlocStopC (c : Char) : Bool := c == '/' || c == '?' || c == '#'

/-- The unsafe bytes `\t`, `\r`, `\n` that `urlsplit` removes. -/
def removeUnsafe (l : List Char) : List Char :=
  l.filter (fun c => !(c == '\t' || c == '\r' || c == '\n'))

/-- Scheme characters: letters, digits, `+`, `-`, `.`. -/
def isSchemeChar (c : Char) : Bool := c.isAlphanum || c == '+' || c == '-' || c == '.'

/-- Drop a leading `scheme:` when present, per `urlsplit`. -/
def splitSchemeRest (l : List Char) : List Char :=
  match l.findIdx? (fun c => c == ':') with
  | some i =>
    if decide (0 < i)
        && (match l.head? with
            | some c => c.isAlpha
            | none => false)
        && (l.take i).all isSchemeChar
    then l.drop (i + 1) else l
  | none => l

/-- The netloc bracket check of `urlsplit`: `[` without `]` or vice
versa. -/
def bracketsBad (n : List Char) : Bool :=
  (n.contains '[' && !n.contains ']') || (n.contains ']' && !n.contains '[')

/-- Netloc of the remainder after the scheme split: present only after a
leading `//`; mismatched square brackets raise. -/
def netlocOfRest (r : List Char) : Except Unit (List Char) :=
  match r with
  | '/' :: '/' :: rest =>
    if bracketsBad (rest.takeWhile (fun c => !netlocStopC c)) then .error ()
    else .ok (rest.takeWhile (fun c => !netlocStopC c))
  | _ => .ok []

/-- `urlparse(url).netloc`, or `ValueError`. -/
def pyNetloc (u : List Char) : Except Unit (List Char) :=
  netlocOfRest (splitSchemeRest (removeUnsafe u))

/-- `domain[4:]` after `domain.startswith('www.')`. -/
def stripWww : List Char → List Char
  | 'w' :: 'w' :: 'w' :: '.' :: rest => rest
  | l => l

/-- The inline domain normalisation the agent performs in both
`is_valid_record` (lines 273-277) and `search_and_extract` (lines 384-397):
`urlparse(url).netloc.lower()` with a leading `www.` stripped; when
`urlparse` raises, the raw URL string is used instead. -/
def normalizeKey (u : String) : String :=
  match pyNetloc u.data with
  | .error _ => u
  | .ok n => ⟨stripWww (n.map pyLowerChar)⟩

/-! ## Data model -/

/-- One Google search hit (`title`, `link`, `snippet`), as collected in
`search_google`. -/
structure SearchResult where
  title : String
  link : String
  snippet : String
deriving DecidableEq, Repr

/-- The value of the `address` key of a JSON-LD block: either a plain JSON
string or a structured object with the four postal sub-fields the agent
reads (`None` sub-field = key absent). -/
inductive AddrVal where
  | plain : String → AddrVal
  | obj : Option String → Option String → Option String → Option String → AddrVal
deriving DecidableEq, Repr

/-- One successfully `json.loads`-parsed JSON-LD dict.  `typeStr` is
`str(data.get('@type', ''))`; an `Option` field is `none` when the
corresponding key is absent from the dict. -/
structure LdBlock where
  typeStr : String
  name : Option String
  email : Option String
  telephone : Option String
  address : Option AddrVal
deriving DecidableEq, Repr

/-- A successfully fetched and parsed page, as the scraper sees it: the
`<title>` text, the first `<h1>` text, the script/style-free page text, and
the `application/ld+json` blocks in document order (`none` = a block whose
`json.loads` failed or that is not a dict — skipped by the `except: pass`). -/
structure Page where
  title : Option String
  h1 : Option String
  text : String
  ldBlocks : List (Option LdBlock)
deriving DecidableEq, Repr

/-- The `info` dict built by `scrape_company_info`, with the source's key
order; `none` models Python `None`. -/
structure CompanyInfo where
  company_name : Option String
  email : Option String
  address : Option String
  phone : Option String
  url : Option String
deriving DecidableEq, Repr

/-- Python falsiness of a field value: `None` or the empty string. -/
def falsy : Option String → Bool
  | none => true
  | some s => s == ""

/-- Projection of one `CompanyInfo` field, used to state per-field facts. -/
inductive RecField where
  | company_name | email | address | phone | url
deriving DecidableEq, Repr

/-- Read the field named by `f`. -/
def RecField.get : RecField → CompanyInfo → Option String
  | .company_name, r => r.company_name
  | .email, r => r.email
  | .address, r => r.address
  | .phone, r => r.phone
  | .url, r => r.url

/-! ## Structured-data merge (v3 source, lines 214-237) -/

/-- Does the block qualify as an Organization block?
`data.get('@type') == 'Organization' or 'Organization' in str(data.get('@type', ''))`;
for every possible value the equality test is subsumed by the substring
test on the stringified type, which is what `typeStr` holds. -/
def qualifiesOrg (b : LdBlock) : Bool :=
  containsSub b.typeStr.data "Organization".data

/-- The address string the block contributes: for a structured `address`
object, the present sub-fields in the order
`streetAddress, addressLocality, addressRegion, postalCode` joined by
`", "` when at least one is present; a plain-string `address` contributes
nothing. -/
def addrJoin : AddrVal → Option String
  | .plain _ => none
  | .obj st lo re po =>
    let parts := [st, lo, re, po].filterMap id
    if parts.isEmpty then none else some (String.intercalate ", " parts)

/-- `if not info[field] and key in data: info[field] = data[key]` — keep a
non-falsy current value, otherwise take the given value when present. -/
def fillField (cur given : Option String) : Option String :=
  if falsy cur then
    match given with
    | some v => some v
    | none => cur
  else cur

/-- Apply one qualifying JSON-LD block to the info dict (the body of the
`for script in json_ld` loop; each of the four updates is guarded only by
its own field's falsiness, so they are independent). -/
def applyBlock (info : CompanyInfo) (b : LdBlock) : CompanyInfo :=
  if qualifiesOrg b then
    { company_name := fillField info.company_name b.name
      email := fillField info.email b.email
      address := fillField info.address
        (match b.address with
          | some av => addrJoin av
          | none => none)
      phone := fillField info.phone b.telephone
      url := info.url }
  else info

/-- The whole `for script in json_ld` loop: every block in document order;
unparseable blocks are skipped. -/
def applyLdBlocks (info : CompanyInfo) : List (Option LdBlock) → CompanyInfo
  | [] => info
  | none :: bs => applyLdBlocks info bs
  | some b :: bs => applyLdBlocks (applyBlock info b) bs

/-! ## `scrape_company_info` (v3 source, lines 157-252)

The fetch, BeautifulSoup parsing and encoding detection are the external
fetch/parse collaborators: `fetch = none` models the `except` path (network
error, non-success status, parse failure), where the initial all-`None`
dict is returned with only `url` set.  The translation feature is disabled
(`HAS_TRANSLATOR = False`), so the translation block is a no-op. -/

/-- `' '.join(text.split())` — core of the scraper's whitespace
normalisation (the NFKC step is the identity on this model's ASCII data). -/
def wordsPyAux : Nat → List Char → List String
  | 0, _ => []
  | _ + 1, [] => []
  | fuel + 1, c :: cs =>
    if isPySpace c then wordsPyAux fuel cs
    else
      ⟨(c :: cs).takeWhile (fun x => !isPySpace x)⟩ ::
        wordsPyAux fuel ((c :: cs).dropWhile (fun x => !isPySpace x))

/-- `' '.join(text.split())`. -/
def normWs (s : String) : String :=
  String.intercalate " " (wordsPyAux (s.data.length + 1) s.data)

/-- `WebSearchAgent.scrape_company_info` (minus I/O): company name from the
title, else the first `<h1>`; email/phone/address from the regex extractors
over the normalised page text; then the JSON-LD merge. -/
def scrape_company_info (url : String) (fetch : Option Page) : CompanyInfo :=
  match fetch with
  | none =>
    { company_name := none, email := none, address := none, phone := none,
      url := some url }
  | some pg =>
    let text := normWs pg.text
    let cn0 : Option String :=
      match pg.title with
      | some t => some (pyStrip t)
      | none => none
    let cn : Option String :=
      match pg.h1 with
      | some h => if falsy cn0 then some (pyStrip h) else cn0
      | none => cn0
    applyLdBlocks
      { company_name := cn, email := extract_email text,
        address := extract_address text, phone := extract_phone text,
        url := some url }
      pg.ldBlocks

/-! ## Per-result snippet fallback (v3 source, lines 352-368) -/

/-- The snippet-fallback block of the `search_and_extract` loop body: title
for a missing company name, extractors over the snippet for missing
email/phone/address (each assignment guarded only by its own field). -/
def snippetFill (sr : SearchResult) (info : CompanyInfo) : CompanyInfo :=
  { company_name :=
      if falsy info.company_name then some sr.title else info.company_name
    email := if falsy info.email then extract_email sr.snippet else info.email
    address :=
      if falsy info.address then extract_address sr.snippet else info.address
    phone := if falsy info.phone then extract_phone sr.snippet else info.phone
    url := info.url }

/-- One loop iteration of `search_and_extract`: scrape the link, then the
snippet fallback. -/
def buildRecord (sr : SearchResult) (fetch : Option Page) : CompanyInfo :=
  snippetFill sr (scrape_company_info sr.link fetch)

/-! ## `is_valid_record` and `filter_records` (v3 source, lines 254-332) -/

/-- The blocklist of `is_valid_record` (the source's set literal lists
`youtube.com` twice; as a set it contains these 24 domains). -/
def blockedDomains : List String :=
  ["facebook.com", "twitter.com", "linkedin.com", "instagram.com",
   "youtube.com", "pinterest.com", "tiktok.com", "reddit.com",
   "yelp.com", "yellowpages.com", "tripadvisor.com", "foursquare.com",
   "manta.com", "bbb.org", "angieslist.com", "thumbtack.com",
   "mapquest.com", "whitepages.com",
   "wikipedia.org", "medium.com", "amazon.com",
   "ebay.com", "etsy.com", "craigslist.org", "indeed.com",
   "glassdoor.com"]

/-- `WebSearchAgent.is_valid_record`: reject an empty/absent URL; normalise
the domain and reject exact blocklist members and their subdomains; a
`urlparse` failure is swallowed (`except: pass`) and the record accepted. -/
def is_valid_record (info : CompanyInfo) : Bool :=
  match info.url with
  | none => false
  | some u =>
    if u == "" then false
    else
      match pyNetloc u.data with
      | .error _ => true
      | .ok n =>
        let domain := stripWww (n.map pyLowerChar)
        if blockedDomains.any (fun b => domain == b.data) then false
        else if blockedDomains.any (fun b => List.isSuffixOf ('.' :: b.data) domain)
        then false
        else true

/-- The sentinel strings of the cleaning pass in `filter_records`. -/
def sentinelWords : List String := ["none", "null", "n/a"]

/-- Is `value.strip().lower()` one of the sentinels? -/
def isSentinelStr (s : String) : Bool :=
  sentinelWords.contains (pyLowerStr (pyStrip s))

/-- Clean one field value: a string whose stripped lower-case form is
`none`/`null`/`n/a` becomes `None`. -/
def cleanField : Option String → Option String
  | none => none
  | some s => if isSentinelStr s then none else some s

/-- The per-record cleaning of `filter_records` (applied to every key of a
copy of the record dict). -/
def cleanRecord (r : CompanyInfo) : CompanyInfo :=
  { company_name := cleanField r.company_name, email := cleanField r.email,
    address := cleanField r.address, phone := cleanField r.phone,
    url := cleanField r.url }

/-- `WebSearchAgent.filter_records`: clean a copy of each record, keep the
cleaned copies that `is_valid_record` accepts, in order. -/
def filter_records : List CompanyInfo → List CompanyInfo
  | [] => []
  | r :: rs =>
    let c := cleanRecord r
    if is_valid_record c then c :: filter_records rs else filter_records rs

/-! ## Deduplication (v3 source, lines 374-397) -/

/-- The dedup loop of `search_and_extract`, with its seen-set (domains and,
on the `except` path, raw URL strings): skip records with a falsy URL; on a
parsed URL keep the record only when the `www.`-stripped lower-cased netloc
is non-empty and unseen; when `urlparse` raises keep the record only when
the raw URL string is unseen. -/
def dedupeAux : List CompanyInfo → List (List Char) → List CompanyInfo
  | [], _ => []
  | r :: rs, seen =>
    match r.url with
    | none => dedupeAux rs seen
    | some s =>
      if s == "" then dedupeAux rs seen
      else
        match pyNetloc s.data with
        | .ok n =>
          let d := stripWww (n.map pyLowerChar)
          if !d.isEmpty && !seen.contains d then r :: dedupeAux rs (d :: seen)
          else dedupeAux rs seen
        | .error _ =>
          if !seen.contains s.data then r :: dedupeAux rs (s.data :: seen)
          else dedupeAux rs seen

/-- Deduplication over an empty seen-set. -/
def dedupe (rs : List CompanyInfo) : List CompanyInfo := dedupeAux rs []

/-- `WebSearchAgent.search_and_extract`, from the already-fetched search
results paired with their page-fetch outcomes (search and fetch are the
external collaborators): build one record per result, filter, dedupe. -/
def search_and_extract (inputs : List (SearchResult × Option Page)) :
    List CompanyInfo :=
  dedupe (filter_records (inputs.map (fun p => buildRecord p.1 p.2)))

/-! ## Renderings of claim wordings that differ from the source

These definitions follow the words of the specification / claims, for
comparison against the source-derived definitions above. -/

/-- The domain of a matched email address: everything after the last `@`
(a match of the email pattern contains exactly one `@`). -/
def emailDomainOf (e : String) : String :=
  ⟨(e.data.reverse.takeWhile (fun c => !(c == '@'))).reverse⟩

/-- Modelled from the claim's words: the match's *domain equals* one of the
placeholder domains. -/
def claimedPlaceholderDomain (e : String) : Bool :=
  placeholderSubstrs.contains (pyLowerStr (emailDomainOf e))

/-- Modelled from the claim's words (C1): among all matches of the email
regex, the first whose domain is not a placeholder domain; if all are
placeholders, the very first match; absent when there is no match. -/
def claimed_extract_email (t : String) : Option String :=
  match findall emailPat t with
  | [] => none
  | e :: es =>
    match (e :: es).find? (fun x => !claimedPlaceholderDomain x) with
    | some f => some f
    | none => some e

/-- Modelled from the claim's words (C2): apply the *first* qualifying
organization block only. -/
def mergeFirstQualifying (info : CompanyInfo) (bs : List (Option LdBlock)) :
    CompanyInfo :=
  match (bs.filterMap id).find? qualifiesOrg with
  | some b => applyBlock info b
  | none => info

/-- Modelled from the claim's words (C4): every record's dedup key — the
normalized domain, or the raw URL string when `urlparse` raises. -/
def claimedKey (r : CompanyInfo) : List Char :=
  match r.url with
  | none => []
  | some s =>
    match pyNetloc s.data with
    | .error _ => s.data
    | .ok n => stripWww (n.map pyLowerChar)

/-- Modelled from the claim's words (C4): keep exactly the records whose
key was not seen earlier, in order. -/
def claimedDedupeAux : List CompanyInfo → List (List Char) → List CompanyInfo
  | [], _ => []
  | r :: rs, seen =>
    if seen.contains (claimedKey r) then claimedDedupeAux rs seen
    else r :: claimedDedupeAux rs (claimedKey r :: seen)

/-- Claim C4's dedup, from an empty seen-set. -/
def claimedDedupe (rs : List CompanyInfo) : List CompanyInfo :=
  claimedDedupeAux rs []

/-- Modelled from the claim's words (C5): a record is rejected when its URL
is absent or empty, or its normalized domain exactly equals a blocklist
entry or ends with `.` followed by one. -/
def blocklistRejects (r : CompanyInfo) : Bool :=
  match r.url with
  | none => true
  | some u =>
    u == "" ||
      (match pyNetloc u.data with
       | .error _ => false
       | .ok n =>
         let d := stripWww (n.map pyLowerChar)
         blockedDomains.any (fun b => d == b.data) ||
           blockedDomains.any (fun b => List.isSuffixOf ('.' :: b.data) d))

/-- The amended dedup key (C4 as corrected): `none` means the record is
dropped unconditionally — absent/empty URL, or a URL that parses with an
empty (or `www.`-only) host. -/
def amendedKey (r : CompanyInfo) : Option (List Char) :=
  match r.url with
  | none => none
  | some s =>
    if s == "" then none
    else
      match pyNetloc s.data with
      | .error _ => some s.data
      | .ok n =>
        let d := stripWww (n.map pyLowerChar)
        if d.isEmpty then none else some d

/-- First-occurrence-wins dedup over `amendedKey` (C4 as corrected). -/
def amendedDedupeAux : List CompanyInfo → List (List Char) → List CompanyInfo
  | [], _ => []
  | r :: rs, seen =>
    match amendedKey r with
    | none => amendedDedupeAux rs seen
    | some k =>
      if seen.contains k then amendedDedupeAux rs seen
      else r :: amendedDedupeAux rs (k :: seen)

/-- The value a JSON-LD block offers for one record field (`none` when the
block has no usable value for that field). -/
def blockGives : RecField → LdBlock → Option String
  | .company_name, b => b.name
  | .email, b => b.email
  | .phone, b => b.telephone
  | .address, b =>
    match b.address with
    | some av => addrJoin av
    | none => none
  | .url, _ => none

/-! ## Helper lemmas -/

/-- Taking the head of a filtered list is `find?`. -/
theorem filter_head_eq_find (l : List String) (p : String → Bool) (e : String) :
    (match l.filter p with
      | f :: _ => some f
      | [] => some e) =
    (match l.find? p with
      | some f => some f
      | none => some e) := by
  induction l with
  | nil => rfl
  | cons x xs ih =>
    by_cases h : p x = true
    · simp [List.filter_cons, List.find?, h]
    · simp only [Bool.not_eq_true] at h
      simp [List.filter_cons, List.find?, h, ih]

/-- A non-falsy field survives one JSON-LD block application. -/
theorem applyBlock_pres (f : RecField) (info : CompanyInfo) (b : LdBlock)
    (h : falsy (f.get info) = false) : f.get (applyBlock info b) = f.get info := by
  cases f <;> simp only [RecField.get] at h ⊢ <;>
    unfold applyBlock <;> split <;> simp [fillField, h]

/-- A falsy field takes exactly what a qualifying block offers. -/
theorem applyBlock_fill (f : RecField) (info : CompanyInfo) (b : LdBlock)
    (hq : qualifiesOrg b = true) (h : falsy (f.get info) = true) :
    f.get (applyBlock info b) =
      (match blockGives f b with
        | some v => some v
        | none => f.get info) := by
  cases f <;> simp only [RecField.get, blockGives] at h ⊢ <;>
    unfold applyBlock <;> simp [hq, fillField, h]

/-- A non-qualifying block changes nothing. -/
theorem applyBlock_skip (info : CompanyInfo) (b : LdBlock)
    (hq : qualifiesOrg b = false) : applyBlock info b = info := by
  simp [applyBlock, hq]

/-- A non-falsy field survives the whole JSON-LD loop. -/
theorem applyLdBlocks_pres (f : RecField) (info : CompanyInfo)
    (bs : List (Option LdBlock)) (h : falsy (f.get info) = false) :
    f.get (applyLdBlocks info bs) = f.get info := by
  induction bs generalizing info with
  | nil => rfl
  | cons o bs ih =>
    cases o with
    | none => simpa [applyLdBlocks] using ih info h
    | some b =>
      have hp := applyBlock_pres f info b h
      simp only [applyLdBlocks]
      rw [ih (applyBlock info b) (by rw [hp]; exact h), hp]

/-- The JSON-LD loop processes appended block lists sequentially. -/
theorem applyLdBlocks_append (info : CompanyInfo)
    (bs1 bs2 : List (Option LdBlock)) :
    applyLdBlocks info (bs1 ++ bs2) =
      applyLdBlocks (applyLdBlocks info bs1) bs2 := by
  induction bs1 generalizing info with
  | nil => rfl
  | cons o bs1 ih =>
    cases o with
    | none => simpa [applyLdBlocks] using ih info
    | some b => simpa [applyLdBlocks] using ih (applyBlock info b)

/-- A non-falsy field survives the snippet-fallback pass. -/
theorem snippetFill_pres (f : RecField) (sr : SearchResult)
    (info : CompanyInfo) (h : falsy (f.get info) = false) :
    f.get (snippetFill sr info) = f.get info := by
  cases f <;> simp only [RecField.get] at h ⊢ <;> simp [snippetFill, h]

/-- Cleaning maps a set field to itself, or to `none` on a sentinel. -/
theorem cleanRecord_get (r : CompanyInfo) (f : RecField) (v : String)
    (h : f.get r = some v) :
    f.get (cleanRecord r) = (if isSentinelStr v then none else some v) := by
  cases f <;> simp_all [cleanRecord, RecField.get, cleanField]

/-- Every deduplication survivor is an input record. -/
theorem dedupeAux_subset (rs : List CompanyInfo) (seen : List (List Char))
    (r : CompanyInfo) (h : r ∈ dedupeAux rs seen) : r ∈ rs := by
  induction rs generalizing seen with
  | nil => simp [dedupeAux] at h
  | cons x xs ih =>
    simp only [dedupeAux] at h
    split at h
    · exact List.mem_cons_of_mem x (ih seen h)
    · split at h
      · exact List.mem_cons_of_mem x (ih seen h)
      · split at h
        · split at h
          · rcases List.mem_cons.mp h with h | h
            · exact h ▸ List.mem_cons_self x xs
            · exact List.mem_cons_of_mem x (ih _ h)
          · exact List.mem_cons_of_mem x (ih seen h)
        · split at h
          · rcases List.mem_cons.mp h with h | h
            · exact h ▸ List.mem_cons_self x xs
            · exact List.mem_cons_of_mem x (ih _ h)
          · exact List.mem_cons_of_mem x (ih seen h)

/-- Every filtered record is the cleaned copy of an input record. -/
theorem filter_records_mem (rs : List CompanyInfo) (r : CompanyInfo)
    (h : r ∈ filter_records rs) : ∃ x ∈ rs, r = cleanRecord x := by
  induction rs with
  | nil => simp [filter_records] at h
  | cons x xs ih =>
    simp only [filter_records] at h
    split at h
    · rcases List.mem_cons.mp h with h | h
      · exact ⟨x, List.mem_cons_self x xs, h⟩
      · obtain ⟨y, hy, hr⟩ := ih h
        exact ⟨y, List.mem_cons_of_mem x hy, hr⟩
    · obtain ⟨y, hy, hr⟩ := ih h
      exact ⟨y, List.mem_cons_of_mem x hy, hr⟩

/-- Lower-casing a character either fixes it or yields a lower-case
letter. -/
theorem pyLowerChar_cases (c : Char) :
    pyLowerChar c = c ∨
      pyLowerChar c ∈ ['a','b','c','d','e','f','g','h','i','j','k','l','m',
        'n','o','p','q','r','s','t','u','v','w','x','y','z'] := by
  unfold pyLowerChar
  cases h : asciiLowerTable.find? (fun p => p.1 == c) with
  | none => exact Or.inl rfl
  | some p =>
    right
    have hp : p ∈ asciiLowerTable := List.mem_of_find?_eq_some h
    have : ∀ q ∈ asciiLowerTable,
        q.2 ∈ ['a','b','c','d','e','f','g','h','i','j','k','l','m',
          'n','o','p','q','r','s','t','u','v','w','x','y','z'] := by decide
    exact this p hp

/-- Lower-casing cannot produce `/`, tab, CR or LF from another
character. -/
theorem pyLowerChar_preserves_special (c : Char) (d : Char)
    (hd : d = '/' ∨ d = '\t' ∨ d = '\r' ∨ d = '\n') (h : pyLowerChar c = d) :
    c = d := by
  rcases pyLowerChar_cases c with hc | hc
  · rw [← hc, h]
  · exfalso
    rw [h] at hc
    rcases hd with h1 | h1 | h1 | h1 <;> subst h1 <;> revert hc <;> decide

/-- The remainder after the scheme split is made of the input's
characters. -/
theorem splitSchemeRest_subset (l : List Char) : splitSchemeRest l ⊆ l := by
  unfold splitSchemeRest
  split
  · split
    · exact List.drop_subset _ l
    · exact fun _ h => h
  · exact fun _ h => h

/-- Every character of a successfully parsed netloc avoids the stop
characters and the removed unsafe bytes. -/
theorem pyNetloc_ok_chars (u n : List Char) (h : pyNetloc u = .ok n) :
    ∀ c ∈ n, (netlocStopC c = false) ∧ c ≠ '\t' ∧ c ≠ '\r' ∧ c ≠ '\n' := by
  unfold pyNetloc netlocOfRest at h
  split at h
  · next rest heq =>
    split at h
    · cases h
    · intro c hc
      have hn : n = rest.takeWhile (fun c => !netlocStopC c) :=
        (Except.ok.injEq _ _ ▸ h).symm
      rw [hn] at hc
      have hstop := List.mem_takeWhile_imp (p := fun c => !netlocStopC c) hc
      have hrest : c ∈ rest := (List.takeWhile_sublist _).subset hc
      have hr : c ∈ splitSchemeRest (removeUnsafe u) := by
        rw [heq]
        exact List.mem_cons_of_mem _ (List.mem_cons_of_mem _ hrest)
      have hru : c ∈ removeUnsafe u := splitSchemeRest_subset _ hr
      have hfil := (List.mem_filter.mp hru).2
      simp only [Bool.not_eq_true', Bool.or_eq_false_iff, beq_eq_false_iff_ne,
        ne_eq] at hfil
      refine ⟨by simpa using hstop, hfil.1.1, hfil.1.2, hfil.2⟩
  · intro c hc
    have : n = [] := (Except.ok.injEq _ _ ▸ h).symm
    rw [this] at hc
    cases hc

/-- A string without `/`, tab, CR or LF re-parses with an empty netloc. -/
theorem pyNetloc_no_slash (m : List Char)
    (h : ∀ c ∈ m, c ≠ '/' ∧ c ≠ '\t' ∧ c ≠ '\r' ∧ c ≠ '\n') :
    pyNetloc m = .ok [] := by
  have hrm : removeUnsafe m = m := by
    unfold removeUnsafe
    refine List.filter_eq_self.mpr (fun c hc => ?_)
    obtain ⟨_, h1, h2, h3⟩ := h c hc
    simp [h1, h2, h3]
  unfold pyNetloc
  rw [hrm]
  have hsub : splitSchemeRest m ⊆ m := splitSchemeRest_subset m
  unfold netlocOfRest
  split
  · next rest heq =>
    exfalso
    have : '/' ∈ splitSchemeRest m := by
      rw [heq]; exact List.mem_cons_self _ _
    exact (h '/' (hsub this)).1 rfl
  · rfl

/-- The characters of a normalized domain key avoid `/`, tab, CR and LF. -/
theorem normalizeKey_chars (u n : List Char) (h : pyNetloc u = .ok n) :
    ∀ c ∈ stripWww (n.map pyLowerChar),
      c ≠ '/' ∧ c ≠ '\t' ∧ c ≠ '\r' ∧ c ≠ '\n' := by
  intro c hc
  have hmem : c ∈ n.map pyLowerChar := by
    revert hc
    unfold stripWww
    split
    · next rest heq =>
      intro hc
      rw [heq]
      exact List.mem_cons_of_mem _ (List.mem_cons_of_mem _
        (List.mem_cons_of_mem _ (List.mem_cons_of_mem _ hc)))
    · exact fun hc => hc
  obtain ⟨a, ha, hla⟩ := List.mem_map.mp hmem
  obtain ⟨hstop, h1, h2, h3⟩ := pyNetloc_ok_chars u n h a ha
  have hslash : a ≠ '/' := by
    intro hEq
    rw [hEq] at hstop
    simp [netlocStopC] at hstop
  constructor
  · intro hEq
    exact hslash (pyLowerChar_preserves_special a '/' (by decide) (hla.trans hEq))
  refine ⟨?_, ?_, ?_⟩
  · intro hEq
    exact h1 (pyLowerChar_preserves_special a '\t' (by decide) (hla.trans hEq))
  · intro hEq
    exact h2 (pyLowerChar_preserves_special a '\r' (by decide) (hla.trans hEq))
  · intro hEq
    exact h3 (pyLowerChar_preserves_special a '\n' (by decide) (hla.trans hEq))

/-- The source's dedup loop equals first-wins dedup over `amendedKey`. -/
theorem dedupeAux_eq_amended (rs : List CompanyInfo) :
    ∀ seen, dedupeAux rs seen = amendedDedupeAux rs seen := by
  induction rs with
  | nil => intro seen; rfl
  | cons r rs ih =>
    intro seen
    simp only [dedupeAux, amendedDedupeAux, amendedKey]
    cases hu : r.url with
    | none => exact ih seen
    | some s =>
      by_cases hs : s == ""
      · simp [hs, ih]
      · simp only [Bool.not_eq_true] at hs
        simp only [hs, Bool.false_eq_true, if_false]
        cases hn : pyNetloc s.data with
        | error e =>
          by_cases hc : seen.contains s.data
          · simp [hc, ih]
          · simp [hc, ih]
        | ok n =>
          by_cases he : (stripWww (n.map pyLowerChar)).isEmpty
          · simp [he, ih]
          · by_cases hc : seen.contains (stripWww (n.map pyLowerChar))
            · simp [he, hc, ih]
            · simp [he, hc, ih]

/-! ## Claim theorems -/

/-- C1 (counterexample): on `"bob@myexample.com alice@real.org"` the first
match's domain `myexample.com` is no placeholder domain, so the claim says
the extractor returns `bob@myexample.com`; the source's substring filter
discards it (it contains `example.com`) and returns `alice@real.org`. -/
theorem extract_email_claim_counterexample :
    extract_email "bob@myexample.com alice@real.org" = some "alice@real.org"
    ∧ claimed_extract_email "bob@myexample.com alice@real.org" =
        some "bob@myexample.com"
    ∧ extract_email "bob@myexample.com alice@real.org" ≠
        claimed_extract_email "bob@myexample.com alice@real.org" :=
  ⟨by decide, by decide, by decide⟩

/-- C1 (amended): for every text, the email extraction returns, among all
matches of the declared email regex, the first match that does not
*contain* any of the placeholder strings `example.com`, `test.com`,
`domain.com` as a case-insensitive substring; if every match contains one
it returns the very first match; with no match at all it returns absent. -/
theorem extract_email_placeholder_substring (t : String) :
    extract_email t =
      (match findall emailPat t with
        | [] => none
        | e :: es =>
          match (e :: es).find? (fun x => !hasPlaceholder x) with
          | some f => some f
          | none => some e) := by
  unfold extract_email
  cases h : findall emailPat t with
  | nil => rfl
  | cons e es => exact filter_head_eq_find (e :: es) _ e

/-- C2 (counterexample): with two qualifying Organization blocks, the first
offering only `name` and the second only `email`, the source fills `email`
from the *second* qualifying block, while the claim (first qualifying block
only) leaves it empty. -/
theorem merge_first_block_counterexample :
    (applyLdBlocks ⟨none, none, none, none, some "u"⟩
        [some ⟨"Organization", some "A", none, none, none⟩,
         some ⟨"Organization", none, some "x@y.com", none, none⟩]).email =
      some "x@y.com"
    ∧ (mergeFirstQualifying ⟨none, none, none, none, some "u"⟩
        [some ⟨"Organization", some "A", none, none, none⟩,
         some ⟨"Organization", none, some "x@y.com", none, none⟩]).email =
      none :=
  ⟨by decide, by decide⟩

/-- C2 (amended): the structured-data merge processes *all* qualifying
organization blocks in order; a non-empty field is never overwritten, a
still-empty field takes exactly the value the current qualifying block
offers (so a field left empty after the first qualifying block can still be
filled from a later one), and non-qualifying blocks change nothing. -/
theorem merge_fills_from_all_qualifying_blocks :
    (∀ (info : CompanyInfo) (bs1 bs2 : List (Option LdBlock)),
      applyLdBlocks info (bs1 ++ bs2) =
        applyLdBlocks (applyLdBlocks info bs1) bs2)
    ∧ (∀ (f : RecField) (info : CompanyInfo) (b : LdBlock),
        falsy (f.get info) = false → f.get (applyBlock info b) = f.get info)
    ∧ (∀ (f : RecField) (info : CompanyInfo) (b : LdBlock),
        qualifiesOrg b = true → falsy (f.get info) = true →
        f.get (applyBlock info b) =
          (match blockGives f b with
            | some v => some v
            | none => f.get info))
    ∧ (∀ (info : CompanyInfo) (b : LdBlock),
        qualifiesOrg b = false → applyBlock info b = info) :=
  ⟨applyLdBlocks_append, applyBlock_pres, applyBlock_fill, applyBlock_skip⟩

/-- C2 (witness): the empty `email` field takes the value offered by the
qualifying block even though `company_name` is already set. -/
theorem merge_fills_witness :
    RecField.get .email
      (applyBlock ⟨some "A", none, none, none, some "u"⟩
        ⟨"Organization", none, some "x@y.com", none, none⟩) = some "x@y.com" := by
  have h := merge_fills_from_all_qualifying_blocks.2.2.1 .email
    ⟨some "A", none, none, none, some "u"⟩
    ⟨"Organization", none, some "x@y.com", none, none⟩ (by decide) (by decide)
  exact h

/-- C3 (counterexample): a page whose title is `"N/A"` sets `company_name`
to the non-empty value `"N/A"` during the scrape, but the filter stage's
cleaning replaces it with absent, so a later pipeline step does replace a
set field. -/
theorem set_once_counterexample :
    (buildRecord ⟨"T", "https://a-site.com", ""⟩
        (some ⟨some "N/A", none, "", []⟩)).company_name = some "N/A"
    ∧ search_and_extract
        [(⟨"T", "https://a-site.com", ""⟩, some ⟨some "N/A", none, "", []⟩)] =
      [⟨none, none, none, none, some "https://a-site.com"⟩] :=
  ⟨by decide, by decide⟩

/-- C3 (amended): a field set to a non-empty value is never changed by the
remaining fill sources (structured-data merge, snippet fallback); every
pipeline output record is exactly the cleaned copy of the record built for
one input result, and the cleaning maps a set field to itself unless its
value is one of the sentinels `none`/`null`/`n/a` (after trimming and
lower-casing), which it replaces with absent; no step ever replaces a set
field with a *different non-empty* value. -/
theorem pipeline_set_once_amended :
    (∀ (f : RecField) (info : CompanyInfo) (bs : List (Option LdBlock)),
      falsy (f.get info) = false →
      f.get (applyLdBlocks info bs) = f.get info)
    ∧ (∀ (f : RecField) (sr : SearchResult) (info : CompanyInfo),
        falsy (f.get info) = false →
        f.get (snippetFill sr info) = f.get info)
    ∧ (∀ (r : CompanyInfo) (f : RecField) (v : String),
        f.get r = some v →
        f.get (cleanRecord r) = (if isSentinelStr v then none else some v))
    ∧ (∀ (inputs : List (SearchResult × Option Page)) (r : CompanyInfo),
        r ∈ search_and_extract inputs →
        ∃ p ∈ inputs, r = cleanRecord (buildRecord p.1 p.2)) := by
  refine ⟨applyLdBlocks_pres, snippetFill_pres, cleanRecord_get, ?_⟩
  intro inputs r h
  have h1 : r ∈ filter_records (inputs.map (fun p => buildRecord p.1 p.2)) :=
    dedupeAux_subset _ [] r h
  obtain ⟨x, hx, hr⟩ := filter_records_mem _ r h1
  obtain ⟨p, hp, hpx⟩ := List.mem_map.mp hx
  exact ⟨p, hp, by rw [hr, hpx]⟩

/-- C3 (witness): the single Acme record of the fetch-failure scenario is
the cleaned copy of its built record. -/
theorem pipeline_set_once_witness :
    ∃ p ∈ [((⟨"X Corp", "https://w.org", ""⟩ : SearchResult),
            (none : Option Page))],
      (⟨some "X Corp", none, none, none, some "https://w.org"⟩ : CompanyInfo) =
        cleanRecord (buildRecord p.1 p.2) :=
  pipeline_set_once_amended.2.2.2
    [((⟨"X Corp", "https://w.org", ""⟩ : SearchResult), (none : Option Page))]
    ⟨some "X Corp", none, none, none, some "https://w.org"⟩ (by decide)

/-- C4 (counterexample): a record whose URL `notaurl` parses without
raising but yields an empty host is dropped by the source's dedup loop,
while the claim (kept iff its key is unseen) keeps it. -/
theorem dedupe_claim_counterexample :
    dedupe [⟨some "X", none, none, none, some "notaurl"⟩] = []
    ∧ claimedDedupe [⟨some "X", none, none, none, some "notaurl"⟩] =
        [⟨some "X", none, none, none, some "notaurl"⟩] :=
  ⟨by decide, by decide⟩

/-- C4 (amended): deduplication is order-preserving, single-pass and
first-wins over the dedup key, where a record whose URL raises in
`urlparse` is keyed by its raw URL string, and a record with an
absent/empty URL or an empty (or `www.`-only) parsed host is dropped
unconditionally, without being keyed; the claim's `acme.com` example
holds. -/
theorem dedupe_amended_spec :
    (∀ rs, dedupe rs = amendedDedupeAux rs [])
    ∧ dedupe
        [⟨none, none, none, none, some "https://acme.com/about"⟩,
         ⟨none, none, none, none, some "http://www.acme.com"⟩] =
      [⟨none, none, none, none, some "https://acme.com/about"⟩] :=
  ⟨fun rs => dedupeAux_eq_amended rs [], by decide⟩

/-- C5: the blocklist filter rejects exactly the records with an absent or
empty URL, or whose normalized domain equals a blocklist entry or ends
with `.` followed by one; everything else — including records without
email/phone/address and records whose URL parse raises — is accepted.
The claim's three examples are verified concretely. -/
theorem is_valid_record_blocklist_iff :
    (∀ r : CompanyInfo, is_valid_record r = !blocklistRejects r)
    ∧ is_valid_record ⟨none, none, none, none,
        some "https://www.facebook.com/SomePage"⟩ = false
    ∧ is_valid_record ⟨none, none, none, none,
        some "https://sub.yelp.com/biz/x"⟩ = false
    ∧ is_valid_record ⟨none, none, none, none,
        some "https://acmewidgets.com"⟩ = true := by
  refine ⟨?_, by decide, by decide, by decide⟩
  intro r
  unfold is_valid_record blocklistRejects
  cases hu : r.url with
  | none => rfl
  | some u =>
    by_cases hs : u == ""
    · simp [hs]
    · simp only [Bool.not_eq_true] at hs
      simp only [hs, Bool.false_eq_true, if_false, Bool.false_or]
      cases hn : pyNetloc u.data with
      | error e => rfl
      | ok n =>
        cases hA : blockedDomains.any
            (fun b => stripWww (n.map pyLowerChar) == b.data) <;>
          cases hB : blockedDomains.any
              (fun b => List.isSuffixOf ('.' :: b.data)
                (stripWww (n.map pyLowerChar))) <;>
          simp [hA, hB]

/-- C6 (counterexample): `normalizeKey "https://acme.com" = "acme.com"`,
but re-normalizing that key (re-parsed as a URL) yields `""`, not the same
key — the bare host has no `//`, so its netloc is empty. -/
theorem normalize_idempotence_counterexample :
    normalizeKey "https://acme.com" = "acme.com"
    ∧ normalizeKey (normalizeKey "https://acme.com") = ""
    ∧ normalizeKey (normalizeKey "https://acme.com") ≠
        normalizeKey "https://acme.com" :=
  ⟨by decide, by decide, by decide⟩

/-- C6 (amended): re-normalizing the DomainKey produced for `u` yields the
same key exactly on the `urlparse`-failure fallback (where the key is the
raw URL string, which raises again); for every URL that parses, the key is
a bare host without `/`, so re-parsing it gives an empty netloc and the
re-normalized key is `""` — in particular `www.` is never stripped a
second time. -/
theorem normalize_renormalize_amended (u : String) :
    normalizeKey (normalizeKey u) =
      (match pyNetloc u.data with
        | .error _ => normalizeKey u
        | .ok _ => "") := by
  cases hn : pyNetloc u.data with
  | error e =>
    have h1 : normalizeKey u = u := by unfold normalizeKey; rw [hn]
    rw [h1]
    exact h1
  | ok n =>
    have h1 : normalizeKey u = ⟨stripWww (n.map pyLowerChar)⟩ := by
      unfold normalizeKey; rw [hn]
    rw [h1]
    unfold normalizeKey
    have h2 : pyNetloc (stripWww (n.map pyLowerChar)) = .ok [] :=
      pyNetloc_no_slash _ (normalizeKey_chars u.data n hn)
    rw [show (String.mk (stripWww (n.map pyLowerChar))).data =
      stripWww (n.map pyLowerChar) from rfl, h2]
    rfl

/-- C7: when the page fetch fails entirely, the built record keeps the
result's link as `url`, all scrape-derived fields absent, and the snippet
fallback fills `company_name` from the search-result title and
email/phone/address from the extractors over the snippet; the claim's Acme
end-to-end scenario passes the blocklist filter and the deduplicator
unchanged. -/
theorem fetch_failure_snippet_fallback :
    (∀ sr : SearchResult,
      buildRecord sr none =
        { company_name := some sr.title, email := extract_email sr.snippet,
          address := extract_address sr.snippet,
          phone := extract_phone sr.snippet, url := some sr.link })
    ∧ search_and_extract
        [(⟨"Acme Co", "https://acme.com", "Contact us at info@acme.com"⟩,
          none)] =
      [{ company_name := some "Acme Co", email := some "info@acme.com",
         address := none, phone := none, url := some "https://acme.com" }] :=
  ⟨fun _ => rfl, by decide⟩

/-- C8: phone extraction returns the stripped first match of the
North-American pattern whenever it matches anywhere, and consults the
international pattern only when the NA pattern has no match at all; with
neither matching the result is absent.  Concretely, on a text whose
international-format number precedes its NA-format number, the NA match
still wins even though the international pattern's first match is the
earlier number. -/
theorem extract_phone_pattern_precedence :
    (∀ t : String,
      extract_phone t =
        (match findall naPhonePat t with
          | x :: _ => some (pyStrip x)
          | [] =>
            match findall intlPhonePat t with
            | y :: _ => some (pyStrip y)
            | [] => none))
    ∧ extract_phone "Call +44 20 7946 0958 or 555-123-4567" =
        some "555-123-4567"
    ∧ (findall intlPhonePat "Call +44 20 7946 0958 or 555-123-4567").head? =
        some "+44 20 7946 0958" := by
  refine ⟨?_, by decide, by decide⟩
  intro t
  unfold extract_phone tryPatterns
  cases h1 : findall naPhonePat t with
  | cons x xs => rfl
  | nil =>
    unfold tryPatterns
    cases h2 : findall intlPhonePat t with
    | cons y ys => rfl
    | nil => rfl

/-- C9: before validity checking, the filter stage builds a cleaned copy of
every record — each string field whose stripped lower-cased value is
exactly `none`, `null` or `n/a` becomes absent — and the output is the
cleaned copies accepted by `is_valid_record`, in order; the inputs are
untouched (the model is purely functional, mirroring `record.copy()`). -/
theorem filter_records_cleaning :
    (∀ rs, filter_records rs = (rs.map cleanRecord).filter is_valid_record)
    ∧ (∀ r : CompanyInfo,
        cleanRecord r =
          { company_name := cleanField r.company_name,
            email := cleanField r.email, address := cleanField r.address,
            phone := cleanField r.phone, url := cleanField r.url })
    ∧ (∀ s : String,
        cleanField (some s) =
          (if sentinelWords.contains (pyLowerStr (pyStrip s)) then none
            else some s))
    ∧ cleanField none = none := by
  refine ⟨?_, fun r => rfl, fun s => rfl, rfl⟩
  intro rs
  induction rs with
  | nil => rfl
  | cons r rs ih =>
    by_cases h : is_valid_record (cleanRecord r)
    · simp [filter_records, List.filter_cons, h, ih]
    · simp only [Bool.not_eq_true] at h
      simp [filter_records, List.filter_cons, h, ih]

/-- C10: in the dedup pass, a record whose non-empty URL parses without
raising but yields an empty host component is silently dropped: the loop
neither keeps it nor adds any key for it. -/
theorem dedupe_drops_empty_host (r : CompanyInfo) (rs : List CompanyInfo)
    (seen : List (List Char)) (s : String) (hu : r.url = some s)
    (hs : s ≠ "") (hn : pyNetloc s.data = .ok []) :
    dedupeAux (r :: rs) seen = dedupeAux rs seen := by
  have h3 : stripWww ([] : List Char) = [] := rfl
  simp [dedupeAux, hu, hn, h3, hs]

/-- C10 (witness): the `notaurl` record — which the blocklist filter
accepts — is dropped by the dedup step without touching the seen-set. -/
theorem dedupe_drops_empty_host_witness :
    is_valid_record ⟨some "X", none, none, none, some "notaurl"⟩ = true
    ∧ dedupeAux [⟨some "X", none, none, none, some "notaurl"⟩] [] =
        dedupeAux [] [] :=
  ⟨by decide,
    dedupe_drops_empty_host ⟨some "X", none, none, none, some "notaurl"⟩ [] []
      "notaurl" rfl (by decide) rfl⟩
